import Mathlib

/-!
Shallow embedding of the netui packet engine (src/scanner.rs,
src/stats_aggregator.rs, src/app.rs) and proofs about the frozen claims.
Rust HashMaps are modelled as association lists (their iteration order is
unspecified in Rust; the accumulating operations used here are commutative,
and every string output sorts its keys first). Machine integers are
modelled as Nat; the one place where truncation is observable,
format_size casting u128 to u32, keeps an explicit % 2^32.
-/

namespace NetUI

/-- Rust std::net::Ipv4Addr: four octets. Ordering in Rust is lexicographic
on the octets, which for octets below 256 coincides with the order of the
32-bit big-endian value computed by toNat. -/
structure Ipv4Addr where
  o1 : Nat
  o2 : Nat
  o3 : Nat
  o4 : Nat
deriving DecidableEq

def Ipv4Addr.toNat (ip : Ipv4Addr) : Nat :=
  ((ip.o1 * 256 + ip.o2) * 256 + ip.o3) * 256 + ip.o4

/-- Display of Ipv4Addr: dotted decimal. -/
def Ipv4Addr.toStr (ip : Ipv4Addr) : String :=
  toString ip.o1 ++ "." ++ toString ip.o2 ++ "." ++ toString ip.o3 ++ "." ++ toString ip.o4

/-- pnet MacAddr: six octets. -/
structure MacAddr where
  ma : Nat
  mb : Nat
  mc : Nat
  md : Nat
  me : Nat
  mf : Nat
deriving DecidableEq

def MacAddr.broadcast : MacAddr := ⟨255, 255, 255, 255, 255, 255⟩

/-- MacAddr::default() is the all-zero address. -/
def MacAddr.defaultMac : MacAddr := ⟨0, 0, 0, 0, 0, 0⟩

/-- stats_aggregator.rs: pub enum Direction. -/
inductive Direction where
  | None
  | Outgoing
  | Incomming
  | Local
deriving DecidableEq

/-- stats_aggregator.rs: pub struct StatKey. -/
structure StatKey where
  src_port : Nat
  sdt_port : Nat
  src_ip : Ipv4Addr
  dst_ip : Ipv4Addr
  direction : Direction
deriving DecidableEq

/-- stats_aggregator.rs: pub struct StatValues. -/
structure StatValues where
  size : Nat
deriving DecidableEq

/-- StatsMap = HashMap<StatKey, StatValues>, modelled as an association list. -/
abbrev StatsMap := List (StatKey × StatValues)

/-- stats_aggregator.rs: pub struct StatItem. -/
structure StatItem where
  key : StatKey
  value : StatValues

/-- stats_aggregator.rs: struct Speed, fields in source order. -/
structure Speed where
  output : Nat
  input : Nat
deriving DecidableEq

/-- impl Add for Speed. -/
def Speed.add (a b : Speed) : Speed :=
  { input := a.input + b.input, output := a.output + b.output }

/-- impl Div of u128 for Speed. -/
def Speed.div (a : Speed) (n : Nat) : Speed :=
  { input := a.input / n, output := a.output / n }

/-- stats_aggregator.rs: struct IpPair. -/
structure IpPair where
  src_ip : Ipv4Addr
  dst_ip : Ipv4Addr
  is_local : Bool
deriving DecidableEq

/-- PairStatMap = HashMap<IpPair, Speed>. -/
abbrev PairStatMap := List (IpPair × Speed)

/-- HashMap lookup on the association-list model. -/
def alLookup {K V : Type} [DecidableEq K] : List (K × V) → K → Option V
  | [], _ => none
  | (k, v) :: t, key => if k = key then some v else alLookup t key

/-- HashMap entry(key).and_modify(f).or_insert(dflt): modify the value when
the key is present, otherwise append (key, dflt). -/
def alEntry {K V : Type} [DecidableEq K]
    (m : List (K × V)) (key : K) (f : V → V) (dflt : V) : List (K × V) :=
  match m with
  | [] => [(key, dflt)]
  | (k, v) :: t => if k = key then (k, f v) :: t else (k, v) :: alEntry t key f dflt

/-- scanner.rs, Scanner::start_listening capture branch for EtherTypes::Ipv4:
agg_data.entry(stat.key).and_modify(v.size += stat.value.size)
.or_insert(StatValues with size 0). -/
def aggFold (agg : StatsMap) (stat : StatItem) : StatsMap :=
  alEntry agg stat.key (fun v => { size := v.size + stat.value.size }) { size := 0 }

/-- ringbuf HeapRb, modelled as a capacity plus the stored elements oldest
first. push_overwrite drops the oldest element when full. -/
structure HeapRb (α : Type) where
  capacity : Nat
  data : List α

def HeapRb.newRb (α : Type) (n : Nat) : HeapRb α := ⟨n, []⟩

def HeapRb.push_overwrite {α : Type} (rb : HeapRb α) (x : α) : HeapRb α :=
  if rb.capacity = 0 then rb
  else if rb.data.length < rb.capacity then ⟨rb.capacity, rb.data ++ [x]⟩
  else ⟨rb.capacity, rb.data.tail ++ [x]⟩

def HeapRb.clear {α : Type} (rb : HeapRb α) : HeapRb α := ⟨rb.capacity, []⟩

def HeapRb.occupied_len {α : Type} (rb : HeapRb α) : Nat := rb.data.length

def HeapRb.is_empty {α : Type} (rb : HeapRb α) : Bool := rb.data.isEmpty

/-- stats_aggregator.rs: pub struct StatsAggregator. -/
structure StatsAggregator where
  speed_buffer_ : HeapRb (List Nat)
  stat_keys_buffer_ : HeapRb StatKey
  stats_buffer : HeapRb StatsMap
  pairs_buffer : HeapRb PairStatMap
  hosts_buffer : HeapRb (List (Ipv4Addr × Speed))
  total_speed_buffer : HeapRb Speed

/-- StatsAggregator::new_with_window_size. Note the stat_keys_buffer_ is
created with capacity 100, not the window size. -/
def StatsAggregator.new_with_window_size (window : Nat) : StatsAggregator where
  speed_buffer_ := HeapRb.newRb (List Nat) window
  stat_keys_buffer_ := HeapRb.newRb StatKey 100
  stats_buffer := HeapRb.newRb StatsMap window
  pairs_buffer := HeapRb.newRb PairStatMap window
  hosts_buffer := HeapRb.newRb (List (Ipv4Addr × Speed)) window
  total_speed_buffer := HeapRb.newRb Speed window

/-- StatsAggregator::new, used by Default::default(). -/
def StatsAggregator.newDefault : StatsAggregator :=
  StatsAggregator.new_with_window_size 10

/-- Direction sums fold in StatsAggregator::tick: a 4-vector
(outgoing, incoming, local, none) of bit totals. -/
def dirSums (m : StatsMap) : List Nat :=
  m.foldl
    (fun acc kv =>
      match kv.1.direction with
      | Direction.Outgoing => [acc.getD 0 0 + kv.2.size, acc.getD 1 0, acc.getD 2 0, acc.getD 3 0]
      | Direction.Incomming => [acc.getD 0 0, acc.getD 1 0 + kv.2.size, acc.getD 2 0, acc.getD 3 0]
      | Direction.Local => [acc.getD 0 0, acc.getD 1 0, acc.getD 2 0 + kv.2.size, acc.getD 3 0]
      | Direction.None => [acc.getD 0 0, acc.getD 1 0, acc.getD 2 0, acc.getD 3 0 + kv.2.size])
    [0, 0, 0, 0]

/-- Body of StatsAggregator::update_pairs_stats_buffer for one raw map:
canonicalize each key into an IpPair and accumulate a Speed per pair.
For Incomming the endpoints are swapped; for Local they are swapped when
src > dst. The entry upsert runs for every direction, so a Direction::None
sample inserts a zero Speed (the match arm only logs). -/
def pairsOfRaw (item : StatsMap) : PairStatMap :=
  item.foldl
    (fun pairs kv =>
      let k := kv.1
      let v := kv.2
      let is_local : Bool := decide (k.direction = Direction.Local)
      let swap : Bool :=
        decide (k.direction = Direction.Incomming) ||
          (is_local && decide (k.dst_ip.toNat < k.src_ip.toNat))
      let src := if swap then k.dst_ip else k.src_ip
      let dst := if swap then k.src_ip else k.dst_ip
      let pair : IpPair := ⟨src, dst, is_local⟩
      let toAdd : Speed :=
        match k.direction with
        | Direction.Outgoing => { output := v.size, input := 0 }
        | Direction.Incomming => { output := 0, input := v.size }
        | Direction.Local =>
          if src ≠ k.src_ip then { output := v.size, input := 0 }
          else { output := 0, input := v.size }
        | Direction.None => { output := 0, input := 0 }
      alEntry pairs pair (fun sp => sp.add toAdd) toAdd)
    []

/-- StatsAggregator::update_pairs_stats_buffer: clear the pairs buffer and
push one canonicalized map per raw map in the stats buffer. -/
def StatsAggregator.update_pairs_stats_buffer (a : StatsAggregator) : StatsAggregator :=
  { a with
    pairs_buffer :=
      a.stats_buffer.data.foldl
        (fun rb item => rb.push_overwrite (pairsOfRaw item)) a.pairs_buffer.clear }

/-- Body of StatsAggregator::update_hosts_stats_buffer for one pair map:
drop is_local pairs and sum each Speed into the pair src_ip. -/
def hostsOfPairs (pairs : PairStatMap) : List (Ipv4Addr × Speed) :=
  (pairs.filter (fun pv => !pv.1.is_local)).foldl
    (fun m pv => alEntry m pv.1.src_ip (fun sp => sp.add pv.2) pv.2) []

/-- StatsAggregator::update_hosts_stats_buffer. -/
def StatsAggregator.update_hosts_stats_buffer (a : StatsAggregator) : StatsAggregator :=
  { a with
    hosts_buffer :=
      a.pairs_buffer.data.foldl
        (fun rb pairs => rb.push_overwrite (hostsOfPairs pairs)) a.hosts_buffer.clear }

/-- Body of StatsAggregator::update_total_speed for one per-host map. -/
def totalOfHosts (per_host : List (Ipv4Addr × Speed)) : Speed :=
  per_host.foldl (fun s pv => s.add pv.2) { output := 0, input := 0 }

/-- StatsAggregator::update_total_speed. -/
def StatsAggregator.update_total_speed (a : StatsAggregator) : StatsAggregator :=
  { a with
    total_speed_buffer :=
      a.hosts_buffer.data.foldl
        (fun rb per_host => rb.push_overwrite (totalOfHosts per_host)) a.total_speed_buffer.clear }

/-- StatsAggregator::tick. -/
def StatsAggregator.tick (a : StatsAggregator) (hash_map : StatsMap) : StatsAggregator :=
  let a1 := { a with speed_buffer_ := a.speed_buffer_.push_overwrite (dirSums hash_map) }
  let a2 :=
    { a1 with
      stat_keys_buffer_ :=
        hash_map.foldl (fun (rb : HeapRb StatKey) (kv : StatKey × StatValues) => rb.push_overwrite kv.1)
          a1.stat_keys_buffer_ }
  let a3 := { a2 with stats_buffer := a2.stats_buffer.push_overwrite hash_map }
  a3.update_pairs_stats_buffer.update_hosts_stats_buffer.update_total_speed

/-- StatsAggregator::speed_per_host: average each host Speed by the number
of window maps the host appears in. -/
def StatsAggregator.speed_per_host (a : StatsAggregator) : List (Ipv4Addr × Speed) :=
  let map_sn : List (Ipv4Addr × (Speed × Nat)) :=
    a.hosts_buffer.data.foldl
      (fun m per_host =>
        per_host.foldl
          (fun m pv => alEntry m pv.1 (fun sn => (sn.1.add pv.2, sn.2 + 1)) (pv.2, 1)) m)
      []
  map_sn.map (fun p => (p.1, p.2.1.div p.2.2))

/-- Rendering of one Rust f64 produced as num/den with den a power of two:
the format with precision 2 rounds to the nearest hundredth, ties to even
(the f64 arithmetic in format_size is exact for these magnitudes). -/
def fmtFixed2 (num den : Nat) : String :=
  let scaled := num * 100
  let q := scaled / den
  let r := scaled % den
  let n :=
    if den < 2 * r then q + 1
    else if 2 * r < den then q
    else if q % 2 = 0 then q else q + 1
  toString (n / 100) ++ "." ++
    (if n % 100 < 10 then "0" ++ toString (n % 100) else toString (n % 100))

/-- stats_aggregator.rs: fn format_size. The source first truncates the u128
to u32 (bits as u32), hence the explicit % 2^32, then formats with two
decimals in base 1024. -/
def format_size (bits : Nat) : String :=
  let b := bits % 4294967296
  if b < 1024 then fmtFixed2 b 1 ++ " Bit/s"
  else if b < 1024 * 1024 then fmtFixed2 b 1024 ++ " Kib/s"
  else fmtFixed2 b (1024 * 1024) ++ " Mib/s"

/-- impl Display for Speed. -/
def Speed.toStr (s : Speed) : String :=
  "↓ " ++ format_size s.input ++ " | ↑ " ++ format_size s.output

/-- StatsAggregator::speed_str. -/
def StatsAggregator.speed_str (a : StatsAggregator) : String :=
  if a.total_speed_buffer.is_empty then ""
  else
    ((a.total_speed_buffer.data.foldl (fun (s b : Speed) => s.add b)
          ({ output := 0, input := 0 } : Speed)).div
        a.total_speed_buffer.occupied_len).toStr

/-- Derived Ord for IpPair: lexicographic on (src_ip, dst_ip, is_local),
Ipv4Addr ordered numerically, false < true. -/
def pairLe (a b : IpPair) : Bool :=
  decide (a.src_ip.toNat < b.src_ip.toNat) ||
    (a.src_ip = b.src_ip &&
      (decide (a.dst_ip.toNat < b.dst_ip.toNat) ||
        (a.dst_ip = b.dst_ip && (!a.is_local || b.is_local))))

def insertSorted (x : IpPair) : List IpPair → List IpPair
  | [] => [x]
  | y :: t => if pairLe x y then x :: y :: t else y :: insertSorted x t

/-- Vec::sort on the key list (keys are distinct, so any sort realizing the
derived order gives the Rust result). -/
def sortPairs (l : List IpPair) : List IpPair := l.foldr insertSorted []

/-- StatsAggregator::connections_strs. -/
def StatsAggregator.connections_strs (a : StatsAggregator) : List String :=
  let pairs_avg : List (IpPair × (Speed × Nat)) :=
    a.pairs_buffer.data.foldl
      (fun m pmap =>
        pmap.foldl
          (fun m pv => alEntry m pv.1 (fun sn => (sn.1.add pv.2, sn.2 + 1)) (pv.2, 1)) m)
      []
  let keys := sortPairs (pairs_avg.map (fun p => p.1))
  keys.map (fun key =>
    match alLookup pairs_avg key with
    | some sn =>
      let speed_avg := sn.1.div sn.2
      let sep :=
        match decide (speed_avg.input ≠ 0), decide (speed_avg.output ≠ 0) with
        | true, true => "<->"
        | true, false => "-->"
        | false, true => "<--"
        | false, false => "---"
      key.src_ip.toStr ++ " " ++ sep ++ " " ++ key.dst_ip.toStr ++ " \t (" ++ speed_avg.toStr ++ ")"
    | none => "")

/-- app.rs: pub struct Host. The chrono timestamp is modelled as a Nat. -/
structure Host where
  time : Nat
  ipv4 : Ipv4Addr
  mac : MacAddr
  hostname : Option String
  is_my_device_mac : Bool
  speed : Option Speed
deriving DecidableEq

/-- impl PartialEq for Host: equality is the (ipv4, mac) pair only. -/
def hostEqb (a b : Host) : Bool :=
  decide (a.ipv4 = b.ipv4) && decide (a.mac = b.mac)

/-- app.rs, App::handle_worker_events, ScannerEvent::HostFound arm: replace
the first host equal under PartialEq (keeping its speed) or push. -/
def handleHostFound : List Host → Host → List Host
  | [], newHost => [newHost]
  | h :: t, newHost =>
    if hostEqb h newHost then { newHost with speed := h.speed } :: t
    else h :: handleHostFound t newHost

/-- app.rs, App::handle_worker_events, ScannerEvent::StatTick arm, applied
to the host list: overwrite the speed of each host whose ipv4 is a key of
the speeds map, leave every other host untouched. -/
def applySpeeds (speeds : List (Ipv4Addr × Speed)) (hosts : List Host) : List Host :=
  hosts.map (fun h =>
    match alLookup speeds h.ipv4 with
    | some speed => { h with speed := some speed }
    | none => h)

/-- app.rs, ScannerEvent::StatTick arm: tick the aggregator, then apply
speed_per_host() to the host list. -/
def handleStatTick (agg : StatsAggregator) (hosts : List Host) (m : StatsMap) :
    StatsAggregator × List Host :=
  let agg2 := agg.tick m
  (agg2, applySpeeds agg2.speed_per_host hosts)

/-- pnet_datalink NetworkInterface, restricted to the fields the scanner
reads. The name is the list of unicode scalar values of the Rust string;
ips holds the addresses of the IPv4 networks bound to the interface, in
order (find_source_ip takes the first one). -/
structure NetworkInterface where
  name : List Nat
  mac : Option MacAddr
  ips : List Ipv4Addr
  up : Bool
  running : Bool
  loopback : Bool
deriving DecidableEq

/-- str::to_lowercase restricted to ASCII: map scalar values 65..90 to
97..122, leave the rest (interface names are ASCII; no unicode character
lowercases to an ASCII uppercase letter, so the uppercase-free property of
the result also holds for the full Rust function). -/
def toLowercase (s : List Nat) : List Nat :=
  s.map (fun c => if 65 ≤ c ∧ c ≤ 90 then c + 32 else c)

/-- str::contains for a substring needle (on scalar-value lists). -/
def containsSub : List Nat → List Nat → Bool
  | [], needle => needle.isEmpty
  | h :: t, needle => needle.isPrefixOf (h :: t) || containsSub t needle

/-- scanner.rs: Scanner::find_interface. The interface name is lowercased;
the user fragment is used verbatim. -/
def find_interface (interfaces : List NetworkInterface) (interface_name : List Nat) :
    Option NetworkInterface :=
  interfaces.reverse.find? (fun nif =>
    nif.up && nif.running && !nif.loopback && containsSub (toLowercase nif.name) interface_name)

/-- scanner.rs: Scanner::find_interface_or_get_default. -/
def find_interface_or_get_default (interfaces : List NetworkInterface)
    (interface_name : List Nat) : Option NetworkInterface :=
  match find_interface interfaces interface_name with
  | some c_nif => some c_nif
  | none => interfaces.reverse.find? (fun nif => nif.up && nif.running && !nif.loopback)

/-- Byte image of a MacAddr (u8 fields, hence % 256). -/
def macBytes (m : MacAddr) : List Nat :=
  [m.ma % 256, m.mb % 256, m.mc % 256, m.md % 256, m.me % 256, m.mf % 256]

/-- Byte image of an Ipv4Addr. -/
def ipv4Bytes (ip : Ipv4Addr) : List Nat :=
  [ip.o1 % 256, ip.o2 % 256, ip.o3 % 256, ip.o4 % 256]

/-- scanner.rs: Scanner::find_source_ip, the first IPv4 network address. -/
def find_source_ip (network_interface : NetworkInterface) : Option Ipv4Addr :=
  network_interface.ips.head?

/-- scanner.rs: Scanner::send_arp_request, as the 42-byte frame handed to
the datalink sender: 14-byte Ethernet header (broadcast destination,
interface mac source, ethertype 0x0806) followed by the 28-byte ARP payload
(hardware type 1, protocol type 0x0800, lengths 6 and 4, operation Request,
sender = interface mac and first IPv4, target = broadcast and the probed
address). none models the process::exit paths for a missing mac or IPv4. -/
def send_arp_request (interface : NetworkInterface) (target_ip : Ipv4Addr) :
    Option (List Nat) :=
  match interface.mac, find_source_ip interface with
  | some source_mac, some source_ip =>
    some
      (macBytes MacAddr.broadcast ++ macBytes source_mac ++ [8, 6] ++
        ([0, 1, 8, 0, 6, 4, 0, 1] ++ macBytes source_mac ++ ipv4Bytes source_ip ++
          macBytes MacAddr.broadcast ++ ipv4Bytes target_ip))
  | _, _ => none

/-- scanner.rs: Scanner::get_host_infos. ArpPacket::new on the buffer past
the 14 Ethernet header bytes returns None below the 28-byte minimum size;
the sender hardware address sits at ARP offsets 8..13 and the sender
protocol address at 14..17. -/
def get_host_infos (buffer : List Nat) (def_nif : NetworkInterface) (now : Nat) :
    Option Host :=
  let arp := buffer.drop 14
  if arp.length < 28 then none
  else
    let sender_mac : MacAddr :=
      ⟨arp.getD 8 0, arp.getD 9 0, arp.getD 10 0, arp.getD 11 0, arp.getD 12 0, arp.getD 13 0⟩
    let sender_ipv4 : Ipv4Addr := ⟨arp.getD 14 0, arp.getD 15 0, arp.getD 16 0, arp.getD 17 0⟩
    some
      { hostname := none
        time := now
        mac := sender_mac
        ipv4 := sender_ipv4
        is_my_device_mac := decide (sender_mac = def_nif.mac.getD MacAddr.defaultMac)
        speed := none }

/-- Observable actions of the emitter worker while serving one
StartScanning command. -/
inductive ScanEvent where
  | beginScan
  | sleepMs (ms : Nat)
  | probe (ip : Ipv4Addr)
  | complete
deriving DecidableEq

/-- scanner.rs: Scanner::scan_range for one IPv4 network (given as its
address list): BeginScan, then for each address a 37 ms sleep followed by
the probe emission, then Complete. -/
def scan_range (addrs : List Ipv4Addr) : List ScanEvent :=
  [ScanEvent.beginScan] ++
    addrs.foldr (fun ip acc => ScanEvent.sleepMs 37 :: ScanEvent.probe ip :: acc) [] ++
    [ScanEvent.complete]

/-- scanner.rs: Scanner::start_tx_worker serving one StartScanning command:
scan_range is invoked once per IPv4 network bound to the interface. -/
def handleStartScanning (ipv4Prefixes : List (List Ipv4Addr)) : List ScanEvent :=
  (ipv4Prefixes.map scan_range).flatten

/-- Target of a probe event, if any. -/
def probeTarget : ScanEvent → Option Ipv4Addr
  | ScanEvent.probe ip => some ip
  | _ => none

/-- Cadence relation between consecutive emitter events: a probe is
directly preceded by the 37 ms sleep. -/
def cadenceOk (x y : ScanEvent) : Prop :=
  (∃ ip, y = ScanEvent.probe ip) → x = ScanEvent.sleepMs 37

/-- Invariant after n ticks: the five window buffers keep capacity w and
length min n w; the stat-keys buffer keeps capacity 100. -/
def AggInv (w n : Nat) (a : StatsAggregator) : Prop :=
  a.stats_buffer.capacity = w ∧ a.speed_buffer_.capacity = w ∧
  a.pairs_buffer.capacity = w ∧ a.hosts_buffer.capacity = w ∧
  a.total_speed_buffer.capacity = w ∧ a.stat_keys_buffer_.capacity = 100 ∧
  a.stats_buffer.data.length = min n w ∧
  a.speed_buffer_.data.length = min n w ∧
  a.pairs_buffer.data.length = min n w ∧
  a.hosts_buffer.data.length = min n w ∧
  a.total_speed_buffer.data.length = min n w

/-- Aggregator state after a sequence of ticks starting from
new_with_window_size. -/
def aggAfter (w : Nat) (ms : List StatsMap) : StatsAggregator :=
  ms.foldl StatsAggregator.tick (StatsAggregator.new_with_window_size w)

/-! Concrete inputs used by counterexamples and witnesses. -/

def ip8888 : Ipv4Addr := ⟨8, 8, 8, 8⟩

def ip10002 : Ipv4Addr := ⟨10, 0, 0, 2⟩

def ip9999 : Ipv4Addr := ⟨9, 9, 9, 9⟩

/-- The single outgoing TCP sample of spec scenario 1. -/
def exKeyOut : StatKey := ⟨4000, 443, ip10002, ip8888, Direction.Outgoing⟩

/-- The symmetric-pair tick map of spec scenario 2. -/
def exMapSym : StatsMap :=
  [(⟨0, 0, ip10002, ip8888, Direction.Outgoing⟩, ⟨1024⟩),
   (⟨0, 0, ip8888, ip10002, Direction.Incomming⟩, ⟨2048⟩)]

def exAggSym : StatsAggregator := StatsAggregator.newDefault.tick exMapSym

/-- The single-flow tick map of spec scenario 1. -/
def exMapOut : StatsMap := [(exKeyOut, ⟨8000⟩)]

def exAggOut : StatsAggregator := StatsAggregator.newDefault.tick exMapOut

def itfAlpha : NetworkInterface :=
  { name := [97, 108, 112, 104, 97], mac := none, ips := [], up := true, running := true,
    loopback := false }

def itfBeta : NetworkInterface :=
  { name := [98, 101, 116, 97], mac := none, ips := [], up := true, running := true,
    loopback := false }

/-- Interface eth0 with a hardware address and one bound IPv4. -/
def exNif : NetworkInterface :=
  { name := [101, 116, 104, 48], mac := some ⟨170, 187, 204, 221, 238, 255⟩,
    ips := [ip10002], up := true, running := true, loopback := false }

def exHostA : Host := ⟨100, ip10002, ⟨1, 2, 3, 4, 5, 6⟩, none, false, none⟩

def exHostB : Host := ⟨200, ip9999, ⟨7, 8, 9, 10, 11, 12⟩, none, false, some ⟨5, 7⟩⟩

/-- The deduplication scenario of spec test 4: a stored host and a second
observation of the same (ipv4, mac) pair. -/
def exHostStored : Host := ⟨1, ⟨192, 168, 1, 5⟩, ⟨170, 187, 204, 221, 238, 255⟩, none, false,
  some ⟨0, 100⟩⟩

def exHostReseen : Host := ⟨2, ⟨192, 168, 1, 5⟩, ⟨170, 187, 204, 221, 238, 255⟩, none, false,
  none⟩

end NetUI

namespace NetUI

/-! Claim theorems. -/

/-- C1: the capture fold does not add the size of a sample whose key is new:
or_insert stores StatValues with size 0, so the first sample of each key in
each one-second window is dropped. Folding one 1024-bit sample into the
empty accumulator leaves a zero entry, and folding the same sample twice
accumulates 1024 rather than 2048, so the per-key sum over published ticks
undercounts the folded sizes. -/
theorem c1_capture_fold_drops_first_sample :
    aggFold [] ⟨exKeyOut, ⟨1024⟩⟩ = [(exKeyOut, ⟨0⟩)] ∧
    aggFold (aggFold [] ⟨exKeyOut, ⟨1024⟩⟩) ⟨exKeyOut, ⟨1024⟩⟩ = [(exKeyOut, ⟨1024⟩)] := by
  decide

/-- C2 counterexample: after the symmetric-pair tick the pair window has no
entry with key (8.8.8.8, 10.0.0.2, is_local = false), and connections_strs
does not contain the string the claim names. -/
theorem c2_counterexample :
    alLookup (exAggSym.pairs_buffer.data.getD 0 []) ⟨ip8888, ip10002, false⟩ = none ∧
    ("8.8.8.8 <-> 10.0.0.2 \t (↓ 1024.00 Bit/s | ↑ 2048.00 Bit/s)" ∈
        exAggSym.connections_strs) = False := by
  constructor
  · decide
  · simp only [eq_iff_iff, iff_false]
    decide

/-- C2 amended: the code swaps an Incomming sample so the local endpoint
becomes src, so the canonical entry is (10.0.0.2, 8.8.8.8, is_local =
false) with Speed output 1024 and input 2048, and connections_strs formats
the averaged speeds, which are at least 1024 bits per second, in Kib/s. -/
theorem c2_pair_window_and_connections :
    exAggSym.pairs_buffer.data = [[(⟨ip10002, ip8888, false⟩, ⟨1024, 2048⟩)]] ∧
    exAggSym.connections_strs = ["10.0.0.2 <-> 8.8.8.8 \t (↓ 2.00 Kib/s | ↑ 1.00 Kib/s)"] := by
  decide

/-- C3 counterexample: after the single-outgoing-flow tick, speed_per_host
has no entry for 8.8.8.8. -/
theorem c3_counterexample :
    alLookup exAggOut.speed_per_host ip8888 = none := by decide

/-- C3 amended: the per-host map keys the pair speed by the canonical src,
which for an Outgoing sample is the local address 10.0.0.2, so the map is
the one-entry map sending 10.0.0.2 to Speed with input 0 and output 8000;
speed_str is as the claim states. -/
theorem c3_speed_per_host_and_speed_str :
    exAggOut.speed_per_host = [(ip10002, ⟨8000, 0⟩)] ∧
    exAggOut.speed_str = "↓ 0.00 Bit/s | ↑ 7.81 Kib/s" := by decide

/-- C4 counterexample: a StartScanning command over an interface with two
IPv4 prefixes publishes two BeginScan and two Complete events, not one. -/
theorem c4_counterexample :
    (handleStartScanning [[ip10002], [ip8888]]).count ScanEvent.beginScan = 2 ∧
    (handleStartScanning [[ip10002], [ip8888]]).count ScanEvent.complete = 2 := by decide

theorem mid_count_beginScan (addrs : List Ipv4Addr) :
    (addrs.foldr (fun ip acc => ScanEvent.sleepMs 37 :: ScanEvent.probe ip :: acc)
      []).count ScanEvent.beginScan = 0 := by
  induction addrs with
  | nil => rfl
  | cons x t ih => simp [List.count_cons, ih]

theorem mid_count_complete (addrs : List Ipv4Addr) :
    (addrs.foldr (fun ip acc => ScanEvent.sleepMs 37 :: ScanEvent.probe ip :: acc)
      []).count ScanEvent.complete = 0 := by
  induction addrs with
  | nil => rfl
  | cons x t ih => simp [List.count_cons, ih]

theorem mid_filterMap (addrs : List Ipv4Addr) :
    (addrs.foldr (fun ip acc => ScanEvent.sleepMs 37 :: ScanEvent.probe ip :: acc)
      []).filterMap probeTarget = addrs := by
  induction addrs with
  | nil => rfl
  | cons x t ih => simp [List.filterMap_cons, probeTarget, ih]

theorem mid_chain (addrs : List Ipv4Addr) :
    List.Chain' cadenceOk
      (addrs.foldr (fun ip acc => ScanEvent.sleepMs 37 :: ScanEvent.probe ip :: acc) [] ++
        [ScanEvent.complete]) ∧
    ∀ ip, (addrs.foldr (fun ip acc => ScanEvent.sleepMs 37 :: ScanEvent.probe ip :: acc) [] ++
        [ScanEvent.complete]).head? ≠ some (ScanEvent.probe ip) := by
  induction addrs with
  | nil =>
    refine ⟨?_, ?_⟩
    · simp
    · intro ip
      simp
  | cons x t ih =>
    obtain ⟨hch, hhd⟩ := ih
    refine ⟨?_, ?_⟩
    · simp only [List.foldr_cons, List.cons_append]
      rw [List.chain'_cons]
      refine ⟨fun _ => rfl, ?_⟩
      rw [List.chain'_cons']
      refine ⟨?_, hch⟩
      intro y hy hyp
      obtain ⟨ip, rfl⟩ := hyp
      rw [Option.mem_def] at hy
      exact absurd hy (hhd ip)
    · intro ip
      simp

theorem scan_range_chain (addrs : List Ipv4Addr) :
    List.Chain' cadenceOk (scan_range addrs) := by
  unfold scan_range
  obtain ⟨hch, hhd⟩ := mid_chain addrs
  simp only [List.singleton_append, List.cons_append, List.append_assoc] at hch hhd ⊢
  rw [List.chain'_cons']
  refine ⟨?_, hch⟩
  intro y hy hyp
  obtain ⟨ip, rfl⟩ := hyp
  rw [Option.mem_def] at hy
  exact absurd hy (hhd ip)

theorem handleStartScanning_head (ps : List (List Ipv4Addr)) (ip : Ipv4Addr) :
    (handleStartScanning ps).head? ≠ some (ScanEvent.probe ip) := by
  cases ps with
  | nil => simp [handleStartScanning]
  | cons p t => simp [handleStartScanning, scan_range]

/-- C4 amended: BeginScan and Complete are published by scan_range, which
runs once per IPv4 prefix, so one StartScanning command yields exactly one
BeginScan and one Complete per prefix, not one per command; the probes
visit every address of every prefix in order, and every probe emission is
directly preceded by the 37 ms sleep. -/
theorem c4_scan_events_per_prefix (ps : List (List Ipv4Addr)) :
    (handleStartScanning ps).count ScanEvent.beginScan = ps.length ∧
    (handleStartScanning ps).count ScanEvent.complete = ps.length ∧
    (handleStartScanning ps).filterMap probeTarget = ps.flatten ∧
    List.Chain' cadenceOk (handleStartScanning ps) := by
  induction ps with
  | nil => refine ⟨rfl, rfl, rfl, by simp [handleStartScanning]⟩
  | cons p t ih =>
    obtain ⟨ih1, ih2, ih3, ih4⟩ := ih
    have hsplit : handleStartScanning (p :: t) = scan_range p ++ handleStartScanning t := by
      simp [handleStartScanning]
    refine ⟨?_, ?_, ?_, ?_⟩
    · rw [hsplit, List.count_append, ih1]
      simp [scan_range, List.count_cons, List.count_append, mid_count_beginScan]
      omega
    · rw [hsplit, List.count_append, ih2]
      simp [scan_range, List.count_cons, List.count_append, mid_count_complete]
      omega
    · rw [hsplit, List.filterMap_append, ih3]
      simp [scan_range, List.filterMap_append, List.filterMap_cons, probeTarget, mid_filterMap]
    · rw [hsplit, List.chain'_append]
      refine ⟨scan_range_chain p, ih4, ?_⟩
      intro x _ y hy ⟨ip, hyp⟩
      exact absurd hy (by rw [hyp]; exact handleStartScanning_head t ip)

/-- C5 counterexample: the stat-keys ring buffer is created with capacity
100, not the window size 10, and after one tick whose map has two keys its
length is 2, not min 1 10. -/
theorem c5_counterexample :
    (StatsAggregator.new_with_window_size 10).stat_keys_buffer_.capacity = 100 ∧
    exAggSym.stat_keys_buffer_.occupied_len = 2 ∧ min 1 10 = 1 := by decide

/-- C6 counterexample: format_size truncates the u128 to u32 before
formatting, so 2 to the 32nd, which the claim places in Mib/s as 4096.00
Mib/s, renders as 0.00 Bit/s. -/
theorem c6_counterexample :
    format_size 4294967296 = "0.00 Bit/s" ∧
    format_size 4294967296 ≠ "4096.00 Mib/s" := by decide

/-! Ring-buffer lemmas and the window-length invariant. -/

theorem HeapRb.capacity_push_overwrite {α : Type} (rb : HeapRb α) (x : α) :
    (rb.push_overwrite x).capacity = rb.capacity := by
  unfold HeapRb.push_overwrite
  split
  · rfl
  · split <;> rfl

theorem HeapRb.length_push_overwrite {α : Type} (rb : HeapRb α) (x : α)
    (hc : 0 < rb.capacity) (h : rb.data.length ≤ rb.capacity) :
    (rb.push_overwrite x).data.length = min (rb.data.length + 1) rb.capacity := by
  unfold HeapRb.push_overwrite
  split
  · omega
  · split
    · simp only [List.length_append, List.length_singleton]
      omega
    · simp only [List.length_append, List.length_singleton, List.length_tail]
      omega

/-- Pushing a mapped list into a buffer that has room for it appends the
mapped elements. -/
theorem refill_eq {α β : Type} (f : α → β) (cap : Nat) :
    ∀ (l : List α) (acc : List β), acc.length + l.length ≤ cap →
      l.foldl (fun rb x => rb.push_overwrite (f x)) (⟨cap, acc⟩ : HeapRb β) =
        ⟨cap, acc ++ l.map f⟩ := by
  intro l
  induction l with
  | nil => intro acc _; simp
  | cons x t ih =>
    intro acc h
    rw [List.length_cons] at h
    have hlt : acc.length < cap := by omega
    have hcap0 : ¬ cap = 0 := by omega
    have hpush : (⟨cap, acc⟩ : HeapRb β).push_overwrite (f x) = ⟨cap, acc ++ [f x]⟩ := by
      simp [HeapRb.push_overwrite, hcap0, hlt]
    have hrest : (acc ++ [f x]).length + t.length ≤ cap := by
      rw [List.length_append, List.length_singleton]
      omega
    rw [List.foldl_cons, hpush, ih (acc ++ [f x]) hrest]
    simp

theorem capacity_foldl {α β : Type} (g : HeapRb β → α → HeapRb β)
    (hg : ∀ rb x, (g rb x).capacity = rb.capacity) :
    ∀ (l : List α) (rb : HeapRb β), (l.foldl g rb).capacity = rb.capacity := by
  intro l
  induction l with
  | nil => intro rb; rfl
  | cons x t ih => intro rb; rw [List.foldl_cons, ih, hg]

theorem tick_stats_buffer (a : StatsAggregator) (m : StatsMap) :
    (a.tick m).stats_buffer = a.stats_buffer.push_overwrite m := rfl

theorem tick_speed_buffer (a : StatsAggregator) (m : StatsMap) :
    (a.tick m).speed_buffer_ = a.speed_buffer_.push_overwrite (dirSums m) := rfl

theorem tick_keys_buffer (a : StatsAggregator) (m : StatsMap) :
    (a.tick m).stat_keys_buffer_ =
      m.foldl (fun (rb : HeapRb StatKey) (kv : StatKey × StatValues) => rb.push_overwrite kv.1)
        a.stat_keys_buffer_ := rfl

theorem tick_pairs_buffer (a : StatsAggregator) (m : StatsMap) :
    (a.tick m).pairs_buffer =
      (a.stats_buffer.push_overwrite m).data.foldl
        (fun rb item => rb.push_overwrite (pairsOfRaw item))
        (⟨a.pairs_buffer.capacity, []⟩ : HeapRb PairStatMap) := rfl

theorem tick_hosts_buffer (a : StatsAggregator) (m : StatsMap) :
    (a.tick m).hosts_buffer =
      (a.tick m).pairs_buffer.data.foldl
        (fun rb pairs => rb.push_overwrite (hostsOfPairs pairs))
        (⟨a.hosts_buffer.capacity, []⟩ : HeapRb (List (Ipv4Addr × Speed))) := rfl

theorem tick_total_buffer (a : StatsAggregator) (m : StatsMap) :
    (a.tick m).total_speed_buffer =
      (a.tick m).hosts_buffer.data.foldl
        (fun rb ph => rb.push_overwrite (totalOfHosts ph))
        (⟨a.total_speed_buffer.capacity, []⟩ : HeapRb Speed) := rfl

theorem AggInv_new (w : Nat) : AggInv w 0 (StatsAggregator.new_with_window_size w) := by
  refine ⟨rfl, rfl, rfl, rfl, rfl, rfl, ?_, ?_, ?_, ?_, ?_⟩ <;> simp [StatsAggregator.new_with_window_size, HeapRb.newRb]

theorem AggInv_tick (w n : Nat) (hw : 0 < w) (m : StatsMap) (a : StatsAggregator)
    (h : AggInv w n a) : AggInv w (n + 1) (a.tick m) := by
  obtain ⟨h1, h2, h3, h4, h5, h6, h7, h8, h9, h10, h11⟩ := h
  have hminw : min n w ≤ w := by omega
  have hslen : (a.stats_buffer.push_overwrite m).data.length = min (n + 1) w := by
    rw [HeapRb.length_push_overwrite _ _ (h1 ▸ hw) (h7 ▸ h1 ▸ hminw), h7, h1]
    omega
  have hp : (a.tick m).pairs_buffer =
      ⟨w, (a.stats_buffer.push_overwrite m).data.map pairsOfRaw⟩ := by
    rw [tick_pairs_buffer, h3]
    exact refill_eq pairsOfRaw w _ [] (by simp only [List.length_nil, Nat.zero_add, hslen]; omega)
  have hh : (a.tick m).hosts_buffer =
      ⟨w, ((a.stats_buffer.push_overwrite m).data.map pairsOfRaw).map hostsOfPairs⟩ := by
    rw [tick_hosts_buffer, hp, h4]
    exact refill_eq hostsOfPairs w _ []
      (by simp only [List.length_nil, Nat.zero_add, List.length_map, hslen]; omega)
  have ht : (a.tick m).total_speed_buffer =
      ⟨w, (((a.stats_buffer.push_overwrite m).data.map pairsOfRaw).map hostsOfPairs).map
        totalOfHosts⟩ := by
    rw [tick_total_buffer, hh, h5]
    exact refill_eq totalOfHosts w _ []
      (by simp only [List.length_nil, Nat.zero_add, List.length_map, hslen]; omega)
  refine ⟨?_, ?_, ?_, ?_, ?_, ?_, ?_, ?_, ?_, ?_, ?_⟩
  · rw [tick_stats_buffer, HeapRb.capacity_push_overwrite, h1]
  · rw [tick_speed_buffer, HeapRb.capacity_push_overwrite, h2]
  · rw [hp]
  · rw [hh]
  · rw [ht]
  · rw [tick_keys_buffer,
      capacity_foldl
        (fun (rb : HeapRb StatKey) (kv : StatKey × StatValues) => rb.push_overwrite kv.1)
        (fun rb kv => HeapRb.capacity_push_overwrite rb kv.1) m a.stat_keys_buffer_, h6]
  · rw [tick_stats_buffer, hslen]
  · rw [tick_speed_buffer,
      HeapRb.length_push_overwrite _ _ (h2 ▸ hw) (h8 ▸ h2 ▸ hminw), h8, h2]
    omega
  · rw [hp]
    simp only [List.length_map, hslen]
  · rw [hh]
    simp only [List.length_map, hslen]
  · rw [ht]
    simp only [List.length_map, hslen]

theorem AggInv_foldl (w : Nat) (hw : 0 < w) :
    ∀ (ms : List StatsMap) (a : StatsAggregator) (n : Nat), AggInv w n a →
      AggInv w (n + ms.length) (ms.foldl StatsAggregator.tick a) := by
  intro ms
  induction ms with
  | nil => intro a n h; simpa using h
  | cons m t ih =>
    intro a n h
    have h2 := ih (a.tick m) (n + 1) (AggInv_tick w n hw m a h)
    rw [List.foldl_cons]
    have : n + 1 + t.length = n + (t.length + 1) := by omega
    rw [this] at h2
    simpa using h2

/-- C5 amended: five of the six ring buffers (raw stats, direction sums,
pairs, hosts, total speed) are sized to the window w and after n ticks each
has length min n w; the sixth, the stat-keys buffer, is created with
capacity 100 and holds one entry per key pushed, not one per tick. -/
theorem c5_window_lengths (w : Nat) (hw : 0 < w) (ms : List StatsMap) :
    ((aggAfter w ms).stats_buffer.capacity = w ∧
      (aggAfter w ms).speed_buffer_.capacity = w ∧
      (aggAfter w ms).pairs_buffer.capacity = w ∧
      (aggAfter w ms).hosts_buffer.capacity = w ∧
      (aggAfter w ms).total_speed_buffer.capacity = w ∧
      (aggAfter w ms).stat_keys_buffer_.capacity = 100) ∧
    ((aggAfter w ms).stats_buffer.occupied_len = min ms.length w ∧
      (aggAfter w ms).speed_buffer_.occupied_len = min ms.length w ∧
      (aggAfter w ms).pairs_buffer.occupied_len = min ms.length w ∧
      (aggAfter w ms).hosts_buffer.occupied_len = min ms.length w ∧
      (aggAfter w ms).total_speed_buffer.occupied_len = min ms.length w) := by
  have h := AggInv_foldl w hw ms (StatsAggregator.new_with_window_size w) 0 (AggInv_new w)
  rw [Nat.zero_add] at h
  obtain ⟨h1, h2, h3, h4, h5, h6, h7, h8, h9, h10, h11⟩ := h
  exact ⟨⟨h1, h2, h3, h4, h5, h6⟩, ⟨h7, h8, h9, h10, h11⟩⟩

/-- C5 witness: the amended theorem applied at window 10 and two concrete
ticks. -/
theorem c5_window_lengths_witness :
    (0 < 10 ∧ (aggAfter 10 [exMapSym, exMapOut]).stats_buffer.occupied_len = min 2 10) ∧
    (aggAfter 10 [exMapSym, exMapOut]).stat_keys_buffer_.capacity = 100 :=
  ⟨⟨by decide, (c5_window_lengths 10 (by decide) [exMapSym, exMapOut]).2.1⟩,
    (c5_window_lengths 10 (by decide) [exMapSym, exMapOut]).1.2.2.2.2.2⟩

/-- C6 amended: format_size truncates its argument to u32 before branching,
so the claimed branch structure holds for every B below 2 to the 32nd:
below 1024 the value is rendered in Bit/s, from 1024 up to 1024*1024
divided by 1024 in Kib/s, otherwise divided by 1024*1024 in Mib/s, two
decimals in base 1024 (ties to even); beyond 2 to the 32nd the value wraps
and the unit can be wrong. -/
theorem c6_format_size_branches (B : Nat) (hB : B < 4294967296) :
    (B < 1024 → format_size B = fmtFixed2 B 1 ++ " Bit/s") ∧
    (1024 ≤ B → B < 1024 * 1024 → format_size B = fmtFixed2 B 1024 ++ " Kib/s") ∧
    (1024 * 1024 ≤ B → format_size B = fmtFixed2 B (1024 * 1024) ++ " Mib/s") := by
  simp only [format_size, Nat.mod_eq_of_lt hB]
  refine ⟨fun h1 => ?_, fun h1 h2 => ?_, fun h1 => ?_⟩
  · rw [if_pos h1]
  · rw [if_neg (by omega), if_pos h2]
  · rw [if_neg (by omega), if_neg (by omega)]

/-- C6 witness: the amended theorem applied at 1024, which lands in the
Kib/s branch. -/
theorem c6_format_size_branches_witness :
    ((1024 : Nat) < 4294967296 ∧ 1024 ≤ (1024 : Nat) ∧ (1024 : Nat) < 1024 * 1024) ∧
      format_size 1024 = fmtFixed2 1024 1024 ++ " Kib/s" ∧
      format_size 1024 = "1.00 Kib/s" :=
  ⟨⟨by decide, by decide, by decide⟩,
    (c6_format_size_branches 1024 (by decide)).2.1 (by decide) (by decide), by decide⟩

theorem toLowercase_no_upper (s : List Nat) (c : Nat) (hc : c ∈ toLowercase s) :
    ¬(65 ≤ c ∧ c ≤ 90) := by
  unfold toLowercase at hc
  obtain ⟨b, _, rfl⟩ := List.mem_map.mp hc
  split <;> omega

theorem mem_of_containsSub :
    ∀ {hay needle : List Nat}, containsSub hay needle = true →
      ∀ {c : Nat}, c ∈ needle → c ∈ hay := by
  intro hay
  induction hay with
  | nil =>
    intro needle h c hc
    unfold containsSub at h
    rw [List.isEmpty_iff] at h
    subst h
    simp at hc
  | cons x t ih =>
    intro needle h c hc
    unfold containsSub at h
    rw [Bool.or_eq_true] at h
    rcases h with h | h
    · exact (List.isPrefixOf_iff_prefix.mp h).subset hc
    · exact List.mem_cons_of_mem x (ih h hc)

/-- C7 amended: only the interface name is lowercased; the fragment is
matched verbatim, so a fragment containing an ASCII uppercase letter
matches no interface and the selection always falls back to the first up,
running, non-loopback interface in reverse enumeration order. Changing
the letter case of the fragment can therefore change the selected
interface. -/
theorem c7_uppercase_fragment_falls_back (interfaces : List NetworkInterface)
    (frag : List Nat) (c : Nat) (hc : c ∈ frag) (hup : 65 ≤ c ∧ c ≤ 90) :
    find_interface interfaces frag = none ∧
    find_interface_or_get_default interfaces frag =
      interfaces.reverse.find? (fun nif => nif.up && nif.running && !nif.loopback) := by
  have hfi : find_interface interfaces frag = none := by
    unfold find_interface
    rw [List.find?_eq_none]
    intro nif _ hpred
    simp only [Bool.and_eq_true] at hpred
    exact toLowercase_no_upper nif.name c (mem_of_containsSub hpred.2 hc) hup
  refine ⟨hfi, ?_⟩
  unfold find_interface_or_get_default
  rw [hfi]

/-- C7 witness: the amended theorem applied to the two-interface
configuration and the uppercase fragment ALPHA. -/
theorem c7_uppercase_fragment_falls_back_witness :
    ((65 : Nat) ∈ [65, 76, 80, 72, 65] ∧ 65 ≤ (65 : Nat) ∧ (65 : Nat) ≤ 90) ∧
      find_interface [itfAlpha, itfBeta] [65, 76, 80, 72, 65] = none :=
  ⟨⟨by decide, by decide, by decide⟩,
    (c7_uppercase_fragment_falls_back [itfAlpha, itfBeta] [65, 76, 80, 72, 65] 65
      (by decide) ⟨by decide, by decide⟩).1⟩

/-- C7 counterexample: the fragments alpha and ALPHA differ only in letter
case, yet with interfaces [alpha, beta], all up, running and non-loopback,
the lowercase fragment selects alpha while the uppercase one matches
nothing and falls back to beta. -/
theorem c7_counterexample :
    toLowercase [65, 76, 80, 72, 65] = [97, 108, 112, 104, 97] ∧
    find_interface_or_get_default [itfAlpha, itfBeta] [97, 108, 112, 104, 97] = some itfAlpha ∧
    find_interface_or_get_default [itfAlpha, itfBeta] [65, 76, 80, 72, 65] = some itfBeta ∧
    itfAlpha ≠ itfBeta := by decide

theorem hostEqb_update_speed (x : Host) (s : Option Speed) :
    hostEqb { x with speed := s } x = true := by
  simp [hostEqb]

theorem handleHostFound_no_match (hosts : List Host) (x : Host)
    (h : ∀ h0 ∈ hosts, hostEqb h0 x = false) :
    handleHostFound hosts x = hosts ++ [x] := by
  induction hosts with
  | nil => rfl
  | cons a t ih =>
    rw [handleHostFound, if_neg (by simp [h a (List.mem_cons_self a t)]),
      ih (fun h0 hh0 => h h0 (List.mem_cons_of_mem a hh0))]
    simp

theorem map_update_no_match (hosts : List Host) (x : Host)
    (h : ∀ h0 ∈ hosts, hostEqb h0 x = false) :
    hosts.map (fun h1 => if hostEqb h1 x then { x with speed := h1.speed } else h1) = hosts := by
  induction hosts with
  | nil => rfl
  | cons a t ih =>
    rw [List.map_cons, if_neg (by simp [h a (List.mem_cons_self a t)]),
      ih (fun h0 hh0 => h h0 (List.mem_cons_of_mem a hh0))]

/-- C9: PartialEq on Host compares only the (ipv4, mac) pair; on a host
list in which at most one entry matches the incoming record's pair,
processing HostFound replaces the matching entry by the new record with
the old speed kept (new timestamp, preserved speed estimate), leaving
exactly one entry for that pair and the length unchanged, and appends the
record when no entry matches. -/
theorem c9_host_dedup (hosts : List Host) (x : Host)
    (hinv : hosts.countP (fun h0 => hostEqb h0 x) ≤ 1) :
    ((∀ h0 ∈ hosts, hostEqb h0 x = false) → handleHostFound hosts x = hosts ++ [x]) ∧
    (∀ h0 ∈ hosts, hostEqb h0 x = true →
      handleHostFound hosts x =
        hosts.map (fun h1 => if hostEqb h1 x then { x with speed := h1.speed } else h1) ∧
      (handleHostFound hosts x).countP (fun h1 => hostEqb h1 x) = 1 ∧
      { x with speed := h0.speed } ∈ handleHostFound hosts x ∧
      (handleHostFound hosts x).length = hosts.length) := by
  refine ⟨handleHostFound_no_match hosts x, ?_⟩
  induction hosts with
  | nil => intro h0 hmem; exact absurd hmem (List.not_mem_nil h0)
  | cons a t ih =>
    intro h0 hmem heq
    rw [List.countP_cons] at hinv
    rcases hEq : hostEqb a x with hfalse | htrue
    · have hinvt : t.countP (fun h1 => hostEqb h1 x) ≤ 1 := by
        rw [hEq, if_neg (by simp)] at hinv
        omega
      have hmem0 : h0 ∈ t := by
        rcases List.mem_cons.mp hmem with rfl | hmt
        · rw [hEq] at heq
          exact absurd heq (by simp)
        · exact hmt
      obtain ⟨ihmap, ihcount, ihmem, ihlen⟩ := ih hinvt h0 hmem0 heq
      have hres : handleHostFound (a :: t) x = a :: handleHostFound t x := by
        rw [handleHostFound, if_neg (by simp [hEq])]
      refine ⟨?_, ?_, ?_, ?_⟩
      · rw [hres, List.map_cons, if_neg (by simp [hEq]), ihmap]
      · rw [hres, List.countP_cons, hEq, ihcount]
        simp
      · rw [hres]
        exact List.mem_cons_of_mem a ihmem
      · rw [hres, List.length_cons, List.length_cons, ihlen]
    · have hzero : t.countP (fun h1 => hostEqb h1 x) = 0 := by
        rw [hEq, if_pos rfl] at hinv
        omega
      have htnone : ∀ h1 ∈ t, hostEqb h1 x = false := by
        intro h1 hh1
        have := List.countP_eq_zero.mp hzero h1 hh1
        simpa using this
      have hres : handleHostFound (a :: t) x =
          { x with speed := a.speed } :: t := by
        rw [handleHostFound, if_pos (by simp [hEq])]
      have h0a : h0 = a := by
        rcases List.mem_cons.mp hmem with rfl | hmt
        · rfl
        · rw [htnone h0 hmt] at heq
          exact absurd heq (by simp)
      refine ⟨?_, ?_, ?_, ?_⟩
      · rw [hres, List.map_cons, if_pos (by simp [hEq]), map_update_no_match t x htnone]
      · rw [hres, List.countP_cons]
        rw [List.countP_eq_zero.mpr (by intro h1 hh1; simp [htnone h1 hh1])]
        simp [hostEqb_update_speed]
      · rw [hres, h0a]
        exact List.mem_cons_self _ _
      · rw [hres, List.length_cons, List.length_cons]

/-- C9 witness: the deduplication scenario, a stored 192.168.1.5 host with
speed estimate 100 re-observed with a later timestamp; the theorem applied
to it yields one entry carrying the new timestamp and the old speed. -/
theorem c9_host_dedup_witness :
    ([exHostStored].countP (fun h0 => hostEqb h0 exHostReseen) ≤ 1 ∧
      exHostStored ∈ [exHostStored] ∧ hostEqb exHostStored exHostReseen = true) ∧
    { exHostReseen with speed := exHostStored.speed } ∈
      handleHostFound [exHostStored] exHostReseen ∧
    (handleHostFound [exHostStored] exHostReseen).countP
      (fun h1 => hostEqb h1 exHostReseen) = 1 :=
  ⟨⟨by decide, by decide, by decide⟩,
    ((c9_host_dedup [exHostStored] exHostReseen (by decide)).2 exHostStored (by decide)
      (by decide)).2.2.1,
    ((c9_host_dedup [exHostStored] exHostReseen (by decide)).2 exHostStored (by decide)
      (by decide)).2.1⟩

/-- C8: encoding a probe for any interface hardware address, first bound
IPv4 and target address, then decoding the same buffer with the inbound
ARP decoder, yields a 42-byte frame and a host record whose ipv4 equals
the probe sender protocol address (the interface first IPv4) and whose mac
equals the probe sender hardware address (the interface hardware
address). -/
theorem c8_arp_roundtrip (nif def_nif : NetworkInterface) (m : MacAddr)
    (src target : Ipv4Addr) (now : Nat)
    (hmac : nif.mac = some m) (hip : find_source_ip nif = some src)
    (hm : m.ma < 256 ∧ m.mb < 256 ∧ m.mc < 256 ∧ m.md < 256 ∧ m.me < 256 ∧ m.mf < 256)
    (hs : src.o1 < 256 ∧ src.o2 < 256 ∧ src.o3 < 256 ∧ src.o4 < 256) :
    (send_arp_request nif target).map List.length = some 42 ∧
    ((send_arp_request nif target).bind
        (fun buf => get_host_infos buf def_nif now)).map Host.ipv4 = some src ∧
    ((send_arp_request nif target).bind
        (fun buf => get_host_infos buf def_nif now)).map Host.mac = some m := by
  obtain ⟨m1, m2, m3, m4, m5, m6⟩ := hm
  obtain ⟨s1, s2, s3, s4⟩ := hs
  have hmb : macBytes m = [m.ma, m.mb, m.mc, m.md, m.me, m.mf] := by
    simp [macBytes, Nat.mod_eq_of_lt, m1, m2, m3, m4, m5, m6]
  have hsb : ipv4Bytes src = [src.o1, src.o2, src.o3, src.o4] := by
    simp [ipv4Bytes, Nat.mod_eq_of_lt, s1, s2, s3, s4]
  have hbuf : send_arp_request nif target =
      some (macBytes MacAddr.broadcast ++ macBytes m ++ [8, 6] ++
        ([0, 1, 8, 0, 6, 4, 0, 1] ++ macBytes m ++ ipv4Bytes src ++
          macBytes MacAddr.broadcast ++ ipv4Bytes target)) := by
    unfold send_arp_request
    rw [hmac, hip]
  rw [hbuf, hmb, hsb]
  refine ⟨rfl, rfl, rfl⟩

/-- C8 witness: the round-trip theorem applied to interface eth0 with a
concrete hardware address, source 10.0.0.2 and target 8.8.8.8. -/
theorem c8_arp_roundtrip_witness :
    (exNif.mac = some ⟨170, 187, 204, 221, 238, 255⟩ ∧
      find_source_ip exNif = some ip10002) ∧
    ((send_arp_request exNif ip8888).bind
        (fun buf => get_host_infos buf exNif 0)).map Host.ipv4 = some ip10002 :=
  ⟨⟨rfl, rfl⟩,
    (c8_arp_roundtrip exNif exNif ⟨170, 187, 204, 221, 238, 255⟩ ip10002 ip8888 0 rfl rfl
      ⟨by decide, by decide, by decide, by decide, by decide, by decide⟩
      ⟨by decide, by decide, by decide, by decide⟩).2.1⟩

/-- C10: processing StatTick replaces the host list by a map over it:
length is preserved and, at every index, every field except speed is
unchanged while speed is overwritten exactly when the host ipv4 is a key
of speed_per_host() after the tick and kept otherwise. -/
theorem c10_stat_tick_frame (agg : StatsAggregator) (hosts : List Host) (m : StatsMap)
    (i : Nat) (hi : i < hosts.length) :
    (handleStatTick agg hosts m).2.length = hosts.length ∧
    ∀ (hi2 : i < (handleStatTick agg hosts m).2.length),
      (handleStatTick agg hosts m).2[i].time = hosts[i].time ∧
      (handleStatTick agg hosts m).2[i].ipv4 = hosts[i].ipv4 ∧
      (handleStatTick agg hosts m).2[i].mac = hosts[i].mac ∧
      (handleStatTick agg hosts m).2[i].hostname = hosts[i].hostname ∧
      (handleStatTick agg hosts m).2[i].is_my_device_mac = hosts[i].is_my_device_mac ∧
      (handleStatTick agg hosts m).2[i].speed =
        (match alLookup (agg.tick m).speed_per_host hosts[i].ipv4 with
          | some s => some s
          | none => hosts[i].speed) := by
  constructor
  · simp [handleStatTick, applySpeeds]
  · intro hi2
    have hget : (handleStatTick agg hosts m).2[i] =
        match alLookup (agg.tick m).speed_per_host hosts[i].ipv4 with
        | some speed => { hosts[i] with speed := some speed }
        | none => hosts[i] := by
      simp [handleStatTick, applySpeeds, List.getElem_map]
    rw [hget]
    cases halk : alLookup (agg.tick m).speed_per_host hosts[i].ipv4 with
    | none => simp
    | some s => simp

/-- C10 witness: the frame theorem applied to a two-host list and the
single-flow tick. -/
theorem c10_stat_tick_frame_witness :
    (1 : Nat) < [exHostA, exHostB].length ∧
    (handleStatTick StatsAggregator.newDefault [exHostA, exHostB] exMapOut).2.length = 2 :=
  ⟨by decide, by
    have h :=
      (c10_stat_tick_frame StatsAggregator.newDefault [exHostA, exHostB] exMapOut 1
        (by decide)).1
    simpa using h⟩

end NetUI
